import Mathlib

/-!
Verification development for the quip-exporter repository.

This file gives a shallow embedding, in Lean 4, of the parts of the
program relevant to the frozen claims:

* `src/quip_exporter/utils/filesystem.py` — `slugify`, `filename_from_url`,
  `safe_write_atomic` (string and path manipulation);
* `src/quip_exporter/conversion/html_processor.py` — `process_images`;
* `src/quip_exporter/export/manifest.py` — `load_manifest`, `save_manifest`;
* `src/quip_exporter/api/client.py` — `get_json` / `get_raw` retry loops;
* `src/quip_exporter/api/endpoints.py` — `list_folder_threads` and
  `_build_folder_path` (breadth-first folder traversal);
* `src/quip_exporter/export/exporter.py` — the per-document section of
  `export_folder_to_markdown` (change detection, output paths, failure
  isolation, manifest update).

Python paths are modelled as lists of segments (POSIX separators);
`pathlib.Path.relative_to` raises `ValueError` when the base is not a
prefix, which the embedding models by returning `none`.  Python strings
are Lean `String`s; character-level operations are carried out on
`String.data` so that every definition evaluates by kernel reduction.
External collaborators (the HTTP session, base64, sha256, markdownify,
yaml) are modelled as explicit oracle functions supplied in environment
records; everything the repository itself computes is translated
directly from the source.
-/

/-! ## Paths (`pathlib` model) -/

/-- A filesystem path as a list of segments (POSIX flavour). -/
abbrev PPath := List String

/-- `pathlib.Path.relative_to`: succeeds exactly when `base` is a prefix of
`p`; Python raises `ValueError` otherwise, modelled as `none`. -/
def relativeTo (p base : PPath) : Option PPath :=
  if base.isPrefixOf p then some (p.drop base.length) else none

/-- `str()` of a (relative) path: segments joined with `/`. -/
def pstr (p : PPath) : String := String.intercalate "/" p

/-! ## Python string helpers used by `utils/filesystem.py` -/

/-- The characters Python's `str.strip()` removes (ASCII whitespace). -/
def pyIsSpace (c : Char) : Bool :=
  c = ' ' || c = '\t' || c = '\n' || c = '\x0d' || c = '\x0b' || c = '\x0c'

/-- `str.strip()` on a character list. -/
def pyStripChars (l : List Char) : List Char :=
  ((l.dropWhile pyIsSpace).reverse.dropWhile pyIsSpace).reverse

/-- Characters matched by the regex class `[\t\r\n]`. -/
def isTabNl (c : Char) : Bool := c = '\t' || c = '\x0d' || c = '\n'

/-- `re.sub(r"[\t\r\n]+", " ", s)`: each maximal run of tab/CR/LF becomes a
single space.  Single pass with a flag recording whether the previous
character belonged to a run. -/
def collapseRunsAux : Bool → List Char → List Char
  | _, [] => []
  | inRun, c :: rest =>
    if isTabNl c then
      if inRun then collapseRunsAux true rest
      else ' ' :: collapseRunsAux true rest
    else c :: collapseRunsAux false rest

def collapseRuns (l : List Char) : List Char := collapseRunsAux false l

/-- The character class kept by `slugify`'s second regex:
`[A-Za-z0-9._ \-\(\)\[\]]`. -/
def slugAllowed (c : Char) : Bool :=
  (('A' ≤ c && c ≤ 'Z') || ('a' ≤ c && c ≤ 'z') || ('0' ≤ c && c ≤ '9')
    || c = '.' || c = '_' || c = ' ' || c = '-' || c = '(' || c = ')'
    || c = '[' || c = ']')

/-- `str.rstrip(" .")`. -/
def rstripDotSpace (l : List Char) : List Char :=
  (l.reverse.dropWhile (fun c => c = ' ' || c = '.')).reverse

/-- `slugify` from `utils/filesystem.py`:
strip, replace `/` by `-`, collapse tab/CR/LF runs to one space, delete
characters outside the allowed class, strip again, truncate to 150,
fall back to `"untitled"` when empty, and finally `rstrip(" .")`. -/
def slugify (name : String) : String :=
  let s1 := pyStripChars name.data
  let s2 := s1.map (fun c => if c = '/' then '-' else c)
  let s3 := collapseRuns s2
  let s4 := pyStripChars (s3.filter slugAllowed)
  let s5 := s4.take 150
  let s6 := if s5.isEmpty then "untitled".data else s5
  ⟨rstripDotSpace s6⟩

/-- `filename_from_url` from `utils/filesystem.py`:
`os.path.basename(url.split("?")[0].split("#")[0]) or "image"`, then
`slugify`. -/
def filename_from_url (url : String) : String :=
  let noQuery := url.data.takeWhile (fun c => c ≠ '?')
  let noFrag := noQuery.takeWhile (fun c => c ≠ '#')
  let base := (noFrag.reverse.takeWhile (fun c => c ≠ '/')).reverse
  let baseS : String := if base.isEmpty then "image" else ⟨base⟩
  slugify baseS

/-- Python truthiness for an optional string attribute: `None` and `""` are
falsy.  Used for `x or y` chains over `.get(...)` results. -/
def truthyS : Option String → Option String
  | some s => if s = "" then none else some s
  | none => none

/-- `a or b or dflt` over optional strings with Python truthiness. -/
def pyOr2 (a b : Option String) (dflt : String) : String :=
  match truthyS a with
  | some s => s
  | none =>
    match truthyS b with
    | some s => s
    | none => dflt

/-- `s.startswith(p)` at character level. -/
def pyStartsWith (s p : String) : Bool := p.data.isPrefixOf s.data

/-- Substring test (`needle in haystack` on Python strings). -/
def containsSeq : List Char → List Char → Bool
  | n, [] => n.isEmpty
  | n, c :: rest => n.isPrefixOf (c :: rest) || containsSeq n rest

/-- `s.split(",", 1)` when a comma is present: the part before the first
comma and everything after it.  `none` when there is no comma (in the
source, unpacking the one-element list then raises `ValueError`). -/
def splitComma1 (s : String) : Option (String × String) :=
  if s.data.contains ',' then
    some (⟨s.data.takeWhile (fun c => c ≠ ',')⟩,
          ⟨(s.data.dropWhile (fun c => c ≠ ',')).tail⟩)
  else none

/-- `s.split('/')` (Python semantics: splitting a non-empty string with no
separator yields one piece). -/
def pySplitSlash (s : String) : List String :=
  (s.data.splitOn '/').map (fun cs => (⟨cs⟩ : String))

/-! ## `conversion/html_processor.py` — `process_images`

The HTML document is modelled as the list of its `<img>` elements, each
with its `src` and `alt` attributes (`none` = attribute absent).  The
network (`get_raw` after its retries) and base64 decoding are oracles in
`NetEnv`: `none` models the call raising.  `safe_write_atomic` calls are
recorded as an ordered write trace `(path, bytes)`. -/

structure Img where
  src : Option String
  alt : Option String
  deriving DecidableEq, Repr

/-- What becomes of one `<img>` element. -/
inductive ImgResult
  /-- The `src` attribute was rewritten to the given relative path. -/
  | rewritten (newSrc : String)
  /-- The element was replaced by the failure comment text. -/
  | replacedByComment (text : String)
  /-- The element was left untouched. -/
  | kept
  deriving DecidableEq, Repr

structure NetEnv where
  /-- `get_raw(session, url)`: `none` models the request raising after the
  client's retries. -/
  fetch : String → Option String
  /-- `base64.b64decode`: `none` models a decode error. -/
  b64decode : String → Option String

/-- The placeholder written for an image that could not be retrieved:
`f"<!-- Image not available: {alt} ({src}) -->"` with
`alt = img.get("alt", "image")`. -/
def commentText (img : Img) (src : String) : String :=
  "<!-- Image not available: " ++ img.alt.getD "image" ++ " (" ++ src ++ ") -->"

/-- One iteration of the `for img in soup.find_all("img")` loop.
Returns the element's fate, the `safe_write_atomic` calls made, and the
paths appended to `downloaded`.

The data-URL branch is wrapped in `try/except: pass`; when it raises
(no comma, decode failure, or `relative_to` failing after the file was
already written) control falls through to the remote branch, which
treats the same `src` as a URL.  The remote branch's own failures are
replaced by the comment when `commentFailed` is true. -/
def processOneImg (env : NetEnv) (assetsDir relBase : PPath)
    (commentFailed : Bool) (img : Img) :
    ImgResult × List (PPath × String) × List PPath :=
  let src := (⟨pyStripChars ((truthyS img.src).getD "").data⟩ : String)
  if src = "" then (.kept, [], [])
  else
    -- data-URL branch: `(completed result?, writes already performed)`
    let dataTry : Option ImgResult × List (PPath × String) × List PPath :=
      if pyStartsWith src "data:" then
        match splitComma1 src with
        | none => (none, [], [])
        | some (header, b64) =>
          let ext := if containsSeq "image/png".data header.data then "png" else "jpg"
          let fn := filename_from_url ("embedded." ++ ext)
          let dest := assetsDir ++ [fn]
          match env.b64decode b64 with
          | none => (none, [], [])
          | some bytes =>
            match relativeTo dest relBase with
            | some rel => (some (.rewritten (pstr rel)), [(dest, bytes)], [dest])
            | none => (none, [(dest, bytes)], [])
      else (none, [], [])
    match dataTry with
    | (some r, w, d) => (r, w, d)
    | (none, w, _) =>
      match env.fetch src with
      | some content =>
        let fn := filename_from_url src
        let dest := assetsDir ++ [fn]
        match relativeTo dest relBase with
        | some rel => (.rewritten (pstr rel), w ++ [(dest, content)], [dest])
        | none =>
          (if commentFailed then .replacedByComment (commentText img src) else .kept,
           w ++ [(dest, content)], [])
      | none =>
        (if commentFailed then .replacedByComment (commentText img src) else .kept,
         w, [])

/-- `process_images` over the whole document: fold of `processOneImg`,
with `relative_to` defaulting to `assets_dir.parent`. -/
def process_images (env : NetEnv) (imgs : List Img) (assetsDir : PPath)
    (relTo : Option PPath) (commentFailed : Bool := true) :
    List ImgResult × List (PPath × String) × List PPath :=
  let relBase := relTo.getD assetsDir.dropLast
  imgs.foldr (fun img acc =>
      let (r, w, d) := processOneImg env assetsDir relBase commentFailed img
      (r :: acc.1, w ++ acc.2.1, d ++ acc.2.2))
    ([], [], [])

/-- Contents a path holds after a write trace runs (later writes win). -/
def lastWrite (writes : List (PPath × String)) (p : PPath) : Option String :=
  writes.foldl (fun acc w => if w.1 = p then some w.2 else acc) none

/-! ## `export/manifest.py`

`load_manifest` is modelled over the state of the manifest file: absent,
present but not valid JSON (where `json.loads` raises), or present with
a parsed JSON value.  `json.loads` returns whatever JSON value the text
denotes — there is no shape check in the source. -/

/-- A JSON value (what `json.loads` can return). -/
inductive JVal
  | jnull
  | jbool (b : Bool)
  | jnum (n : Int)
  | jstr (s : String)
  | jarr (xs : List JVal)
  | jobj (fields : List (String × JVal))

def JVal.isObj : JVal → Bool
  | .jobj _ => true
  | _ => false

/-- The state of the file at the manifest path. -/
inductive ManifestFile
  /-- `path.exists()` is false. -/
  | absent
  /-- The file exists but reading or `json.loads` raises. -/
  | unparseable
  /-- The file exists and `json.loads` returns `v`. -/
  | parsed (v : JVal)

/-- `load_manifest`: return `{}` when the file is absent; otherwise return
`json.loads(text)`, falling back to `{}` only when that call raises. -/
def load_manifest : ManifestFile → JVal
  | .absent => .jobj []
  | .unparseable => .jobj []
  | .parsed v => v

/-- A manifest entry as built by `export_folder_to_markdown` (the dict
literal assigned to `manifest[t.id]`). -/
structure MEntry where
  title : String
  filename : String
  updated_key : String
  last_exported : Nat
  images : List String
  folder_path : Option String
  deriving DecidableEq, Repr

/-- The in-memory manifest: a Python dict (insertion-ordered association
list with unique keys). -/
abbrev Manifest := List (String × MEntry)

/-- `manifest.get(k)` (dict lookup; keys are unique in a Python dict, so
matching the first occurrence is exact). -/
def mget : Manifest → String → Option MEntry
  | [], _ => none
  | (k0, v0) :: rest, k => if k0 = k then some v0 else mget rest k

/-- `manifest[k] = v`: dict assignment — replace the key's entry in place
when present, else append at the end (insertion order). -/
def mset : Manifest → String → MEntry → Manifest
  | [], k, v => [(k, v)]
  | (k0, v0) :: rest, k, v =>
    if k0 = k then (k, v) :: rest else (k0, v0) :: mset rest k v

/-- Key order used by `json.dumps(..., sort_keys=True)`: Python's string
comparison, i.e. lexicographic on code points. -/
def entryLe (a b : String × MEntry) : Prop := a.1.data ≤ b.1.data

instance : DecidableRel entryLe := fun a b =>
  inferInstanceAs (Decidable (a.1.data ≤ b.1.data))

/-- The entries in the key order `json.dumps(..., sort_keys=True)` emits. -/
def sortEntries (m : Manifest) : Manifest := m.insertionSort entryLe

/-- Rendering of one entry (model of the stdlib JSON serializer applied to
the entry dict; a fixed deterministic function of the fields). -/
def renderEntry (e : MEntry) : String :=
  "\x7b\"title\": \"" ++ e.title ++ "\", \"filename\": \"" ++ e.filename ++
    "\", \"updated_key\": \"" ++ e.updated_key ++ "\", \"last_exported\": " ++
    toString e.last_exported ++ ", \"images\": [" ++
    String.intercalate ", " (e.images.map (fun s => "\"" ++ s ++ "\"")) ++
    "]" ++
    (match e.folder_path with
     | some fp => ", \"folder_path\": \"" ++ fp ++ "\""
     | none => "") ++ "\x7d"

/-- `json.dumps(data, indent=2, sort_keys=True)` as a deterministic
rendering over the key-sorted entry list. -/
def renderManifest (m : Manifest) : String :=
  "\x7b" ++ String.intercalate ", "
    ((sortEntries m).map (fun p => "\"" ++ p.1 ++ "\": " ++ renderEntry p.2)) ++ "\x7d"

/-! ### `save_manifest` and the atomic-write pattern

The filesystem is a map from path strings to contents.  `save_manifest`
is the two-step sequence `tmp.write_text(...)` then `tmp.replace(path)`;
the crash case is the state after the first step only. -/

/-- `pathlib.PurePath.with_suffix` for a path whose final component has a
proper (non-leading) dot suffix: drop from the last dot of the final
component, then append the new suffix. -/
def withSuffix (p suf : String) : String :=
  let cs := p.data
  let name := (cs.reverse.takeWhile (fun c => c ≠ '/')).reverse
  let dir := cs.take (cs.length - name.length)
  let stemRev := (name.reverse.dropWhile (fun c => c ≠ '.')).tail
  let newName := if name.contains '.' ∧ ¬ stemRev.isEmpty
    then stemRev.reverse ++ suf.data
    else name ++ suf.data
  ⟨dir ++ newName⟩

/-- A filesystem state: contents by path. -/
def FState := String → Option String

/-- `write_text`. -/
def fsWrite (fs : FState) (p c : String) : FState :=
  fun q => if q = p then some c else fs q

/-- `Path.replace`: rename `src` onto `dst` (atomic overwrite). -/
def fsRename (fs : FState) (src dst : String) : FState :=
  fun q => if q = dst then fs src else if q = src then none else fs q

/-- `save_manifest(path, data)` run to completion. -/
def save_manifest (fs : FState) (path : String) (m : Manifest) : FState :=
  let tmp := withSuffix path ".json.tmp"
  fsRename (fsWrite fs tmp (renderManifest m)) tmp path

/-- `save_manifest` interrupted after the temp-file write, before the
rename. -/
def save_manifest_crashed (fs : FState) (path : String) (m : Manifest) : FState :=
  fsWrite fs (withSuffix path ".json.tmp") (renderManifest m)

/-! ## `api/client.py` — retry loops of `get_json` / `get_raw`

One attempt either raises a network-level `requests.RequestException`
(`none`) or yields a response with a status code and body.  Statuses
429/502/503/504 back off and `continue`; otherwise `raise_for_status()`
raises `requests.exceptions.HTTPError` — itself a `RequestException`
subclass, hence caught by the same `except` clause — for any status
≥ 400, and the body is returned otherwise.  The loop runs `range(4)`;
an exception on the last iteration propagates, and falling off the end
of the loop (only possible after a retryable status on the last
iteration) raises `RuntimeError("unreachable")`. -/

/-- Outcome of `get_json` / `get_raw`. -/
inductive GetResult
  | ok (body : String)
  /-- An `HTTPError` from `raise_for_status` propagated. -/
  | httpError (code : Nat)
  /-- A network-level `RequestException` propagated. -/
  | netError
  /-- `RuntimeError("unreachable")` after four retryable statuses. -/
  | runtimeError
  deriving DecidableEq, Repr

/-- `status_code in (429, 502, 503, 504)`. -/
def retryableStatus (c : Nat) : Bool :=
  c = 429 || c = 502 || c = 503 || c = 504

/-- The `for i in range(4)` loop of `get_json`/`get_raw`; `resp i` is
attempt `i`'s result (`none` = the GET raised a `RequestException`). -/
def getLoop (resp : Nat → Option (Nat × String)) : Nat → Nat → GetResult
  | 0, _ => .runtimeError
  | fuel + 1, i =>
    match resp i with
    | none => if i = 3 then .netError else getLoop resp fuel (i + 1)
    | some (code, body) =>
      if retryableStatus code then getLoop resp fuel (i + 1)
      else if 400 ≤ code then
        if i = 3 then .httpError code else getLoop resp fuel (i + 1)
      else .ok body

/-- `get_json` (and identically `get_raw`): four attempts starting at 0. -/
def get_json (resp : Nat → Option (Nat × String)) : GetResult :=
  getLoop resp 4 0

/-- `get_raw` has the same retry structure as `get_json` with
`r.content` in place of `r.json()`. -/
def get_raw (resp : Nat → Option (Nat × String)) : GetResult :=
  getLoop resp 4 0

/-! ## `models/types.py` — `ThreadMeta` -/

structure ThreadMeta where
  id : String
  title : String
  updated_usec : Option Nat
  url : Option String
  folder_path : Option String
  deriving DecidableEq, Repr

/-! ## `api/endpoints.py` — `list_folder_threads`

The remote API is a finite association list of folder objects (so that
the traversal's state space is finite; `none` on lookup models the
request raising, caught with a warning) plus a thread lookup oracle. -/

/-- One element of a folder's `children` array: the code tests
`"thread_id" in child` first, then `"folder_id" in child`. -/
inductive ChildRef
  | thread (tid : String)
  | folder (fid : String)
  deriving DecidableEq, Repr

structure FolderObj where
  title : Option String
  name : Option String
  children : List ChildRef
  deriving DecidableEq, Repr

structure ThreadObj where
  title : Option String
  updated_usec : Option Nat
  link : Option String
  url : Option String
  deriving DecidableEq, Repr

structure ApiEnv where
  /-- `GET /folders/{id}` (already unwrapped from the `"folder"` key);
  `none` = the request raises, and the folder is skipped with a warning. -/
  folders : List (String × FolderObj)
  /-- `GET /threads/{id}`; `none` = the request raises, and the thread is
  skipped with a warning. -/
  threads : String → Option ThreadObj

def ApiEnv.folderAt (env : ApiEnv) (fid : String) : Option FolderObj :=
  (env.folders.find? (fun p => p.1 = fid)).map (·.2)

/-- `folder_info`: folder id ↦ (display name, parent id). -/
abbrev FolderInfo := List (String × String × Option String)

def infoAt (info : FolderInfo) (fid : String) : Option (String × Option String) :=
  (info.find? (fun p => p.1 = fid)).map (·.2)

/-- The `while fid and fid != root_folder_id` walk of `_build_folder_path`,
accumulating `path_parts` in append order (leaf first).  The source can
loop forever on a cyclic parent map; parent maps built by the traversal
are acyclic and visit at most one `folder_info` entry per step, so a
fuel of `info.length + 1` covers every terminating execution. -/
def buildPathAux (info : FolderInfo) (root : String) :
    Nat → Option String → List String → List String
  | 0, _, acc => acc
  | fuel + 1, fid?, acc =>
    match truthyS fid? with
    | none => acc
    | some fid =>
      if fid = root then acc
      else
        match infoAt info fid with
        | none => acc
        | some (nm, parent) => buildPathAux info root fuel parent (acc ++ [slugify nm])

/-- `_build_folder_path`: slash-join of the ancestor slugs, root to leaf;
`""` for the root folder itself and for an empty part list. -/
def buildFolderPath (current root : String) (info : FolderInfo) : String :=
  if current = root then ""
  else
    let parts := (buildPathAux info root (info.length + 1) (some current) []).reverse
    String.intercalate "/" parts

/-- The descriptors appended while iterating one visited folder's
children: each thread child is fetched (failures are skipped), and
`folder_path` is computed only when `maintain_structure` is on. -/
def childThreads (env : ApiEnv) (maintain : Bool) (rootId : String)
    (info : FolderInfo) (fid : String) (cs : List ChildRef) : List ThreadMeta :=
  cs.filterMap (fun c =>
    match c with
    | .thread tid =>
      match env.threads tid with
      | none => none
      | some tobj =>
        some { id := tid
               title := tobj.title.getD tid
               updated_usec := tobj.updated_usec
               url := truthyS tobj.link <|> truthyS tobj.url
               folder_path :=
                 if maintain then some (buildFolderPath fid rootId info) else none }
    | .folder _ => none)

/-- The subfolder ids a visited folder enqueues (only when `recursive`). -/
def childFolders (recursive : Bool) (fid : String) (cs : List ChildRef) :
    List (String × Option String) :=
  if recursive then
    cs.filterMap (fun c =>
      match c with
      | .folder sf => some (sf, some fid)
      | .thread _ => none)
  else []

structure WalkState where
  queue : List (String × Option String)
  seen : List String
  info : FolderInfo
  out : List ThreadMeta

/-- The `while to_visit` loop.  Each iteration pops the queue head;
already-seen folders are skipped, failed folder fetches mark the id seen
and move on, and otherwise the folder's children emit descriptors and
enqueue subfolders. -/
def walkLoop (env : ApiEnv) (rootId : String) (recursive maintain : Bool) :
    Nat → WalkState → WalkState
  | 0, s => s
  | fuel + 1, s =>
    match s.queue with
    | [] => s
    | (fid, parent) :: rest =>
      if fid ∈ s.seen then
        walkLoop env rootId recursive maintain fuel { s with queue := rest }
      else
        let seen' := s.seen ++ [fid]
        match env.folderAt fid with
        | none =>
          walkLoop env rootId recursive maintain fuel
            { s with queue := rest, seen := seen' }
        | some fo =>
          let fname := pyOr2 fo.title fo.name fid
          let info' := s.info ++ [(fid, fname, parent)]
          walkLoop env rootId recursive maintain fuel
            { queue := rest ++ childFolders recursive fid fo.children
              seen := seen'
              info := info'
              out := s.out ++ childThreads env maintain rootId info' fid fo.children }

/-- Each iteration pops one queue element, and everything ever enqueued is
the initial element plus, per distinct processed folder, its folder
children; so this fuel always lets the queue drain. -/
def walkFuel (env : ApiEnv) : Nat :=
  1 + (env.folders.map (fun p => p.2.children.length)).sum

/-- The traversal's flat output before the final sort. -/
def walkOut (env : ApiEnv) (rootId : String) (recursive maintain : Bool) :
    List ThreadMeta :=
  (walkLoop env rootId recursive maintain (walkFuel env)
    ⟨[(rootId, none)], [], [], []⟩).out

/-! ### The final sort

`list.sort(key=...)` is a stable sort by the key tuple; Python compares
strings lexicographically on code points, exactly the lexicographic
order on `String.data`.  A stable sort by key `k` is the sort of the
index-annotated list by the injective key `(k x, position)`. -/

/-- `x.title.lower()` (the titles exercised here are ASCII; Python's
Unicode case folding agrees with per-character `toLower` on ASCII). -/
def pyLower (s : String) : String :=
  ⟨s.data.map (fun c =>
    if 'A' ≤ c ∧ c ≤ 'Z' then Char.ofNat (c.toNat + 32) else c)⟩

/-- Sort key with `maintain_structure`: `(x.folder_path or "", x.title.lower(), x.id)`
as a code-point tuple. -/
def key3 (x : ThreadMeta) : List (List Char) :=
  [((truthyS x.folder_path).getD "").data, (pyLower x.title).data, x.id.data]

/-- Sort key without: `(x.title.lower(), x.id)`. -/
def key2 (x : ThreadMeta) : List (List Char) :=
  [(pyLower x.title).data, x.id.data]

/-- The sort relation on index-annotated elements: lexicographic on
`(key, original position)`. -/
def stableRel (key : ThreadMeta → List (List Char)) (a b : Nat × ThreadMeta) : Prop :=
  toLex (key a.2, a.1) ≤ toLex (key b.2, b.1)

instance (key : ThreadMeta → List (List Char)) : DecidableRel (stableRel key) :=
  fun a b =>
    inferInstanceAs (Decidable (toLex (key a.2, a.1) ≤ toLex (key b.2, b.1)))

/-- Python's stable `list.sort(key=...)`. -/
def pySortBy (key : ThreadMeta → List (List Char)) (l : List ThreadMeta) :
    List ThreadMeta :=
  (l.enum.insertionSort (stableRel key)).map (·.2)

/-- `list_folder_threads`: traversal followed by the stable sort, whose
key depends on `maintain_structure`. -/
def list_folder_threads (env : ApiEnv) (folderId : String)
    (recursive : Bool) (maintain : Bool := false) : List ThreadMeta :=
  let out := walkOut env folderId recursive maintain
  if maintain then pySortBy key3 out else pySortBy key2 out

/-! ## `export/exporter.py` — per-document processing

`export_folder_to_markdown`'s loop body, per document.  External
effects appear as per-document oracles in `DocEnv`:

* `html` — the combined result of `fetch_thread` + `extract_html`
  (`none`: the fetch failed or no HTML was found, both of which skip);
* `mkdirOk` — whether the `ensure_dir` calls between the hash check and
  the `try` block succeed (`os.makedirs` can raise `OSError`); a failure
  there is **outside** the `try` and propagates;
* `conv` — the result of `html_to_md_with_images` (Markdown body and
  `downloaded` file list), `none` = it raises;
* `writeOk` — whether `safe_write_atomic` on the Markdown file succeeds;
* `now` — `int(time.time())`.

`cfg.hash` models `sha256_bytes` (an arbitrary deterministic digest
function), and `cfg.folder_dir` is the export root for the folder. -/

structure ExportCfg where
  folder_dir : PPath
  maintain_structure : Bool
  hash : String → String

structure DocEnv where
  html : Option String
  mkdirOk : Bool
  conv : Option (String × List PPath)
  writeOk : Bool
  now : Nat

/-- Terminal state of one document (spec §4.3). -/
inductive DocStatus
  | skippedUnchanged
  | skippedNoContent
  | exported
  | failed
  deriving DecidableEq, Repr

structure DocOut where
  status : DocStatus
  manifest : Manifest
  /-- whether `fetch_thread` was called for this document -/
  fetched : Bool
  /-- Markdown files written by `safe_write_atomic` -/
  written : List PPath
  deriving DecidableEq, Repr

/-- `maintain_structure and t.folder_path` (Python truthiness). -/
def structuredPath (cfg : ExportCfg) (t : ThreadMeta) : Option String :=
  if cfg.maintain_structure then truthyS t.folder_path else none

/-- The Markdown output path: `folder_dir/<folder_path?>/<slug(title)> - <id>.md`. -/
def mdPathOf (cfg : ExportCfg) (t : ThreadMeta) : PPath :=
  let fname := slugify t.title ++ " - " ++ t.id ++ ".md"
  match structuredPath cfg t with
  | some fp => cfg.folder_dir ++ pySplitSlash fp ++ [fname]
  | none => cfg.folder_dir ++ [fname]

/-- The per-document asset directory: `folder_dir/_assets/<id>`, independent
of the folder path. -/
def docAssetsOf (cfg : ExportCfg) (t : ThreadMeta) : PPath :=
  cfg.folder_dir ++ ["_assets", t.id]

/-- `[str(Path(p).relative_to(folder_dir)) for p in downloaded]`; `none`
when any `relative_to` raises (an exception inside the `try` block). -/
def relImages (ps : List PPath) (base : PPath) : Option (List String) :=
  ps.mapM (fun p => (relativeTo p base).map pstr)

/-- The manifest's stored change key for an identity:
`manifest.get(t.id, {}).get("updated_key")`. -/
def storedKey (m : Manifest) (id : String) : Option String :=
  (mget m id).map (·.updated_key)

/-- Steps 4-6 for a document that was fetched and not skipped: output
paths, directory creation (outside the `try`), then the `try` block
(asset relocation + conversion, front-matter, atomic write, manifest
entry). -/
def docWritePhase (cfg : ExportCfg) (env : DocEnv) (m : Manifest)
    (t : ThreadMeta) (updatedKey : String) : Option DocOut :=
  let mdPath := mdPathOf cfg t
  if ¬ env.mkdirOk then none
  else
    match env.conv with
    | none => some ⟨.failed, m, true, []⟩
    | some (_, downloaded) =>
      if ¬ env.writeOk then some ⟨.failed, m, true, []⟩
      else
        match relImages downloaded cfg.folder_dir with
        | none => some ⟨.failed, m, true, [mdPath]⟩
        | some imgs =>
          let entry : MEntry :=
            { title := t.title
              filename := pstr ((relativeTo mdPath cfg.folder_dir).getD mdPath)
              updated_key := updatedKey
              last_exported := env.now
              images := imgs
              folder_path := truthyS t.folder_path }
          some ⟨.exported, mset m t.id entry, true, [mdPath]⟩

/-- Steps 2-6: fetch the content (both a failed fetch and missing HTML
skip), compute the effective change key, apply the hash-based second
chance (timestampless documents only), then write. -/
def docFetchPhase (cfg : ExportCfg) (env : DocEnv) (m : Manifest)
    (t : ThreadMeta) : Option DocOut :=
  match env.html with
  | none => some ⟨.skippedNoContent, m, true, []⟩
  | some html =>
    let updatedKey :=
      match t.updated_usec with
      | some u => toString u
      | none => cfg.hash html
    if t.updated_usec = none ∧ storedKey m t.id = some updatedKey then
      some ⟨.skippedUnchanged, m, true, []⟩
    else docWritePhase cfg env m t updatedKey

/-- One iteration of `for t in threads`.  `none` models an exception that
is *not* caught by the per-document `try` (only the `ensure_dir` calls
can raise there) and therefore propagates out of the whole folder
export.  The timestamp-based skip happens before any fetch. -/
def docStep (cfg : ExportCfg) (env : DocEnv) (m : Manifest) (t : ThreadMeta) :
    Option DocOut :=
  match t.updated_usec with
  | some u =>
    if storedKey m t.id = some (toString u) then
      some ⟨.skippedUnchanged, m, false, []⟩
    else docFetchPhase cfg env m t
  | none => docFetchPhase cfg env m t

/-- Result of running the document loop. -/
structure RunResult where
  statuses : List DocStatus
  manifest : Manifest
  written : List PPath
  /-- `false` when an uncaught exception aborted the loop (and
  `save_manifest` was never reached). -/
  completed : Bool
  deriving DecidableEq, Repr

/-- The `for t in threads` loop over (document, oracle) pairs. -/
def runDocs (cfg : ExportCfg) : List (ThreadMeta × DocEnv) → Manifest → RunResult
  | [], m => ⟨[], m, [], true⟩
  | (t, env) :: rest, m =>
    match docStep cfg env m t with
    | none => ⟨[], m, [], false⟩
    | some o =>
      let r := runDocs cfg rest o.manifest
      ⟨o.status :: r.statuses, r.manifest, o.written ++ r.written, r.completed⟩

/-- Attempt trace for the C4 counterexample: 404 first, then 200. -/
def c4resp : Nat → Option (Nat × String) :=
  fun i => if i = 0 then some (404, "nf") else some (200, "payload")

/-! # Theorems -/

/-! ## C5 — `load_manifest` on absent / malformed files -/

/-- **C5** (code bug).  `load_manifest` does return `{}` when the file is
absent or `json.loads` raises; but a file holding valid JSON that is not
an object — here `[]` — is returned as-is, so the result is *not* always
a mapping, contradicting the function's declared `Dict[str, dict]`
return type and docstring. -/
theorem c5_load_manifest_passes_nonmapping_through :
    load_manifest .absent = .jobj [] ∧
    load_manifest .unparseable = .jobj [] ∧
    load_manifest (.parsed (.jarr [])) = .jarr [] ∧
    (load_manifest (.parsed (.jarr []))).isObj = false :=
  ⟨rfl, rfl, rfl, rfl⟩

/-! ## C9 — atomic manifest save with sorted keys -/

/-- **C9**.  `save_manifest` writes the rendering to the sibling path
`manifest.json.tmp` and renames it into place: a crash between the
temp-file write and the rename leaves the previous `manifest.json`
contents untouched (hence still parseable); the completed save leaves
the deterministic rendering of the data; and the rendering serializes
entries in sorted key order. -/
theorem c9_save_manifest_atomic_sorted (fs : FState) (m : Manifest) :
    save_manifest_crashed fs "manifest.json" m "manifest.json"
        = fs "manifest.json" ∧
    save_manifest fs "manifest.json" m "manifest.json"
        = some (renderManifest m) ∧
    List.Sorted entryLe (sortEntries m) ∧
    (sortEntries m).Perm m := by
  refine ⟨?_, ?_, ?_, ?_⟩
  · show (if ("manifest.json" : String) = withSuffix "manifest.json" ".json.tmp"
        then some (renderManifest m) else fs "manifest.json") = fs "manifest.json"
    rw [if_neg (by decide)]
  · rfl
  · haveI h1 : IsTotal (String × MEntry) entryLe :=
      ⟨fun a b => le_total a.1.data b.1.data⟩
    haveI h2 : IsTrans (String × MEntry) entryLe :=
      ⟨fun _ _ _ hab hbc => le_trans hab hbc⟩
    exact List.sorted_insertionSort entryLe m
  · exact List.perm_insertionSort entryLe m

/-! ## C4 — retry policy of `get_json` / `get_raw` -/

/-- **C4** (counterexample to the claim as stated).  A permanent HTTP
error is *not* raised immediately: `raise_for_status()` raises
`requests.exceptions.HTTPError`, a subclass of `RequestException`, which
the retry loop's `except` clause catches on every attempt but the last.
Here the first attempt returns 404 and yet both fetch functions retry
and return the second attempt's 200 body. -/
theorem c4_counterexample_404_is_retried :
    c4resp 0 = some (404, "nf") ∧
    get_json c4resp = .ok "payload" ∧
    get_raw c4resp = .ok "payload" :=
  ⟨rfl, rfl, rfl⟩

/-- **C4** (amended).  Retryable statuses (429/502/503/504) are retried
with bounded attempts — four of them — and then surfaced as an error
(`RuntimeError`); a successful non-retryable response is returned; and
permanent HTTP errors (status ≥ 400 outside the retryable set) are
*also* retried, the `HTTPError` propagating only on the fourth attempt
rather than immediately.  `get_raw` follows the identical loop. -/
theorem c4_retry_policy (resp : Nat → Option (Nat × String)) :
    ((∀ i, i < 4 → ∃ c b, resp i = some (c, b) ∧ retryableStatus c = true) →
      get_json resp = .runtimeError) ∧
    (∀ c b, resp 0 = some (c, b) → retryableStatus c = false → c < 400 →
      get_json resp = .ok b) ∧
    (∀ c, 400 ≤ c → retryableStatus c = false →
      (∀ i, i < 4 → ∃ b, resp i = some (c, b)) →
      get_json resp = .httpError c) ∧
    get_raw resp = get_json resp := by
  refine ⟨?_, ?_, ?_, rfl⟩
  · intro h
    obtain ⟨c0, b0, h0, r0⟩ := h 0 (by norm_num)
    obtain ⟨c1, b1, h1, r1⟩ := h 1 (by norm_num)
    obtain ⟨c2, b2, h2, r2⟩ := h 2 (by norm_num)
    obtain ⟨c3, b3, h3, r3⟩ := h 3 (by norm_num)
    simp [get_json, getLoop, h0, h1, h2, h3, r0, r1, r2, r3]
  · intro c b h0 hret hlt
    simp [get_json, getLoop, h0, hret, Nat.not_le.mpr hlt]
  · intro c h400 hret h
    obtain ⟨b0, h0⟩ := h 0 (by norm_num)
    obtain ⟨b1, h1⟩ := h 1 (by norm_num)
    obtain ⟨b2, h2⟩ := h 2 (by norm_num)
    obtain ⟨b3, h3⟩ := h 3 (by norm_num)
    simp [get_json, getLoop, h0, h1, h2, h3, hret, h400]

/-- Witness for `c4_retry_policy` at concrete inputs. -/
theorem c4_retry_policy_witness :
    get_json (fun _ => some (429, "x")) = .runtimeError ∧
    get_json (fun _ => some (200, "ok")) = .ok "ok" ∧
    get_json (fun _ => some (404, "nf")) = .httpError 404 :=
  ⟨(c4_retry_policy (fun _ => some (429, "x"))).1
      (fun i _ => ⟨429, "x", rfl, rfl⟩),
   (c4_retry_policy (fun _ => some (200, "ok"))).2.1 200 "ok" rfl rfl
      (by norm_num),
   (c4_retry_policy (fun _ => some (404, "nf"))).2.2.1 404 (by norm_num) rfl
      (fun i _ => ⟨"nf", rfl⟩)⟩

/-! ## C1 — reference rewriting relative to the output file's directory -/

/-- C1 scenario: `maintain_structure` export of a folder rooted at
`out/proj`. -/
def c1Cfg : ExportCfg := ⟨["out", "proj"], true, fun _ => "H"⟩

/-- A document nested one folder deep (`folder_path = "sub"`). -/
def c1Nested : ThreadMeta := ⟨"T1", "Doc", some 7, none, some "sub"⟩

/-- The same document at the folder root (no folder path). -/
def c1Flat : ThreadMeta := ⟨"T1", "Doc", some 7, none, none⟩

def c1Url : String := "https://quip.example.com/blob/T1/img.png"

/-- Network oracle: the image URL fetches fine; base64 is never needed. -/
def c1Net : NetEnv :=
  ⟨fun u => if u = c1Url then some "IMGBYTES" else none, fun _ => none⟩

/-- **C1** (code bug).  The orchestrator passes `relative_to =
md_path.parent`.  In the flat case the asset is written and the
reference is rewritten relative to that directory, as claimed.  But in
the nested case — the very situation the claim covers ("including when
folder-structure nesting makes that directory differ from the asset
directory's parent") — `Path.relative_to` cannot express an upward
(`../`) path and raises `ValueError`, so the reference of a
successfully written asset is *not* rewritten: the exception falls into
the failure branch and the `<img>` is replaced by the not-available
comment (and the file is also missing from `downloaded`). -/
theorem c1_nested_reference_not_rewritten :
    (mdPathOf c1Cfg c1Nested).dropLast = ["out", "proj", "sub"] ∧
    process_images c1Net [⟨some c1Url, some "diagram"⟩]
        (docAssetsOf c1Cfg c1Flat) (some (mdPathOf c1Cfg c1Flat).dropLast)
      = ([.rewritten "_assets/T1/img.png"],
         [(["out", "proj", "_assets", "T1", "img.png"], "IMGBYTES")],
         [["out", "proj", "_assets", "T1", "img.png"]]) ∧
    process_images c1Net [⟨some c1Url, some "diagram"⟩]
        (docAssetsOf c1Cfg c1Nested) (some (mdPathOf c1Cfg c1Nested).dropLast)
      = ([.replacedByComment
            "<!-- Image not available: diagram (https://quip.example.com/blob/T1/img.png) -->"],
         [(["out", "proj", "_assets", "T1", "img.png"], "IMGBYTES")],
         []) :=
  ⟨rfl, by decide, by decide⟩

/-! ## C10 — fixed filenames for inline-encoded images -/

/-- The stripped `src` of an attribute that needs no stripping. -/
lemma strippedSrc_eq (S : String) (hne : S.data ≠ [])
    (hstrip : pyStripChars S.data = S.data) :
    (⟨pyStripChars ((truthyS (some S)).getD "").data⟩ : String) = S := by
  have hne' : S ≠ "" := fun h => hne (by rw [h])
  rw [show truthyS (some S) = some S from by simp [truthyS, hne']]
  show (⟨pyStripChars S.data⟩ : String) = S
  rw [hstrip]

/-- A data-URL image whose decode, write and rewrite all succeed: the
asset is written to `assetsDir/<filename_from_url("embedded.<ext>")>`
with the extension chosen by the `"image/png" in header` test, and the
`src` is rewritten to the path relative to `relBase`. -/
lemma processOneImg_data_ok (env : NetEnv) (aDir relBase : PPath) (img : Img)
    (src header b64s fn bytes : String) (rel : PPath)
    (hsrc : (⟨pyStripChars ((truthyS img.src).getD "").data⟩ : String) = src)
    (hne : ¬ (src = ""))
    (hpre : pyStartsWith src "data:" = true)
    (hsplit : splitComma1 src = some (header, b64s))
    (hdec : env.b64decode b64s = some bytes)
    (hfn : filename_from_url ("embedded." ++
      (if containsSeq "image/png".data header.data then "png" else "jpg")) = fn)
    (hrel : relativeTo (aDir ++ [fn]) relBase = some rel) :
    processOneImg env aDir relBase true img
      = (.rewritten (pstr rel), [(aDir ++ [fn], bytes)], [aDir ++ [fn]]) := by
  unfold processOneImg
  rw [hsrc]
  rw [if_neg hne, hpre]
  simp only [if_true, hsplit, hdec, hfn, hrel]

/-- **C10**.  Every successfully decoded inline image is written to the
fixed name `embedded.png` (media type declaring PNG) or `embedded.jpg`
(anything else) in the document's asset directory.  Consequently two
distinct PNG data URLs in one document are written to the *same* path —
the trace shows the second write overwriting the first — and both
references are rewritten to that single file's relative path. -/
theorem c10_inline_images_fixed_filename (env : NetEnv) (aDir relBase : PPath)
    (p1 p2 pj b1 b2 bj : String) (rel relJ : PPath)
    (hs1 : pyStripChars ("data:image/png;base64," ++ p1).data
        = ("data:image/png;base64," ++ p1).data)
    (hs2 : pyStripChars ("data:image/png;base64," ++ p2).data
        = ("data:image/png;base64," ++ p2).data)
    (hsj : pyStripChars ("data:image/jpeg;base64," ++ pj).data
        = ("data:image/jpeg;base64," ++ pj).data)
    (hd1 : env.b64decode p1 = some b1) (hd2 : env.b64decode p2 = some b2)
    (hdj : env.b64decode pj = some bj)
    (hrel : relativeTo (aDir ++ ["embedded.png"]) relBase = some rel)
    (hrelJ : relativeTo (aDir ++ ["embedded.jpg"]) relBase = some relJ) :
    process_images env
        [⟨some ("data:image/png;base64," ++ p1), none⟩,
         ⟨some ("data:image/png;base64," ++ p2), none⟩] aDir (some relBase)
      = ([.rewritten (pstr rel), .rewritten (pstr rel)],
         [(aDir ++ ["embedded.png"], b1), (aDir ++ ["embedded.png"], b2)],
         [aDir ++ ["embedded.png"], aDir ++ ["embedded.png"]]) ∧
    lastWrite [(aDir ++ ["embedded.png"], b1), (aDir ++ ["embedded.png"], b2)]
        (aDir ++ ["embedded.png"]) = some b2 ∧
    processOneImg env aDir relBase true ⟨some ("data:image/jpeg;base64," ++ pj), none⟩
      = (.rewritten (pstr relJ), [(aDir ++ ["embedded.jpg"], bj)], [aDir ++ ["embedded.jpg"]]) := by
  have h1 := processOneImg_data_ok env aDir relBase
      ⟨some ("data:image/png;base64," ++ p1), none⟩
      ("data:image/png;base64," ++ p1) "data:image/png;base64" p1 "embedded.png" b1 rel
      (strippedSrc_eq _ (fun h => List.noConfusion h) hs1)
      (fun h => List.noConfusion (congrArg String.data h))
      rfl rfl hd1 rfl hrel
  have h2 := processOneImg_data_ok env aDir relBase
      ⟨some ("data:image/png;base64," ++ p2), none⟩
      ("data:image/png;base64," ++ p2) "data:image/png;base64" p2 "embedded.png" b2 rel
      (strippedSrc_eq _ (fun h => List.noConfusion h) hs2)
      (fun h => List.noConfusion (congrArg String.data h))
      rfl rfl hd2 rfl hrel
  have h3 := processOneImg_data_ok env aDir relBase
      ⟨some ("data:image/jpeg;base64," ++ pj), none⟩
      ("data:image/jpeg;base64," ++ pj) "data:image/jpeg;base64" pj "embedded.jpg" bj relJ
      (strippedSrc_eq _ (fun h => List.noConfusion h) hsj)
      (fun h => List.noConfusion (congrArg String.data h))
      rfl rfl hdj rfl hrelJ
  refine ⟨?_, ?_, h3⟩
  · simp only [process_images, List.foldr, Option.getD]
    rw [h1, h2]
    simp
  · simp [lastWrite]

/-- Decode oracle for the C10 witness. -/
def c10Net : NetEnv :=
  ⟨fun _ => none,
   fun p => if p = "P1" then some "B1"
     else if p = "P2" then some "B2"
     else if p = "PJ" then some "BJ" else none⟩

/-- Witness for `c10_inline_images_fixed_filename` at concrete inputs. -/
theorem c10_inline_images_witness :
    process_images c10Net
        [⟨some ("data:image/png;base64," ++ "P1"), none⟩,
         ⟨some ("data:image/png;base64," ++ "P2"), none⟩]
        ["fold", "_assets", "T"] (some ["fold"])
      = ([.rewritten "_assets/T/embedded.png", .rewritten "_assets/T/embedded.png"],
         [(["fold", "_assets", "T", "embedded.png"], "B1"),
          (["fold", "_assets", "T", "embedded.png"], "B2")],
         [["fold", "_assets", "T", "embedded.png"], ["fold", "_assets", "T", "embedded.png"]]) ∧
    processOneImg c10Net ["fold", "_assets", "T"] ["fold"] true
        ⟨some ("data:image/jpeg;base64," ++ "PJ"), none⟩
      = (.rewritten "_assets/T/embedded.jpg",
         [(["fold", "_assets", "T", "embedded.jpg"], "BJ")],
         [["fold", "_assets", "T", "embedded.jpg"]]) := by
  have h := c10_inline_images_fixed_filename c10Net ["fold", "_assets", "T"] ["fold"]
      "P1" "P2" "PJ" "B1" "B2" "BJ" ["_assets", "T", "embedded.png"]
      ["_assets", "T", "embedded.jpg"]
      (by decide) (by decide) (by decide) rfl rfl rfl rfl rfl
  exact ⟨h.1, h.2.2⟩

/-! ## Manifest dictionary lemmas -/

lemma mget_mset_self (m : Manifest) (k : String) (v : MEntry) :
    mget (mset m k v) k = some v := by
  induction m with
  | nil => simp [mset, mget]
  | cons p rest ih =>
    obtain ⟨k0, v0⟩ := p
    by_cases h0 : k0 = k
    · simp [mset, mget, h0]
    · simp [mset, mget, h0, ih]

lemma mget_mset_other (m : Manifest) (k : String) (v : MEntry) (k' : String)
    (h : k' ≠ k) : mget (mset m k v) k' = mget m k' := by
  have hsym : ¬ k = k' := fun hh => h hh.symm
  induction m with
  | nil => simp [mset, mget, hsym]
  | cons p rest ih =>
    obtain ⟨k0, v0⟩ := p
    by_cases h0 : k0 = k
    · subst h0
      simp [mset, mget, hsym]
    · by_cases h1 : k0 = k'
      · subst h1
        simp [mset, mget, h0, h]
      · simp [mset, mget, h0, h1, ih]

/-! ## Per-document step lemmas -/

/-- Whatever `docWritePhase` returns was fetched and is terminal `FAILED`
or `EXPORTED`. -/
lemma docWritePhase_shape (cfg : ExportCfg) (env : DocEnv) (m : Manifest)
    (t : ThreadMeta) (k : String) (o : DocOut)
    (h : docWritePhase cfg env m t k = some o) :
    o.fetched = true ∧ (o.status = .failed ∨ o.status = .exported) := by
  unfold docWritePhase at h
  split at h
  · exact absurd h (by simp)
  · split at h
    · cases h; exact ⟨rfl, Or.inl rfl⟩
    · split at h
      · cases h; exact ⟨rfl, Or.inl rfl⟩
      · split at h
        · cases h; exact ⟨rfl, Or.inl rfl⟩
        · cases h; exact ⟨rfl, Or.inr rfl⟩

/-- The manifest is only touched by a document that reaches `EXPORTED`. -/
lemma docStep_manifest (cfg : ExportCfg) (env : DocEnv) (m : Manifest)
    (t : ThreadMeta) (o : DocOut) (h : docStep cfg env m t = some o) :
    o.status = .exported ∨ o.manifest = m := by
  have wp : ∀ k, docWritePhase cfg env m t k = some o →
      o.status = .exported ∨ o.manifest = m := by
    intro k hw
    unfold docWritePhase at hw
    split at hw
    · exact absurd hw (by simp)
    · split at hw
      · cases hw; exact Or.inr rfl
      · split at hw
        · cases hw; exact Or.inr rfl
        · split at hw
          · cases hw; exact Or.inr rfl
          · cases hw; exact Or.inl rfl
  have fp : docFetchPhase cfg env m t = some o →
      o.status = .exported ∨ o.manifest = m := by
    intro hf
    unfold docFetchPhase at hf
    cases hh : env.html with
    | none => simp only [hh] at hf; cases hf; exact Or.inr rfl
    | some d =>
      simp only [hh] at hf
      split at hf
      · cases hf; exact Or.inr rfl
      · exact wp _ hf
  cases hu : t.updated_usec with
  | some u =>
    simp only [docStep, hu] at h
    split at h
    · cases h; exact Or.inr rfl
    · exact fp h
  | none =>
    simp only [docStep, hu] at h
    exact fp h

/-! ## C2 — change-detection decision rule -/

/-- **C2**.  Characterization of the skip decision: the document is
processed without fetching exactly when its version token is present and
equals the manifest's stored key; and it ends `SKIPPED_UNCHANGED`
exactly when either that token match holds, or no token exists and the
fetched content's hash matches the stored key.  In particular a
token-bearing document is never skipped through the hash comparison. -/
theorem c2_skip_decision (cfg : ExportCfg) (env : DocEnv) (m : Manifest)
    (t : ThreadMeta) (out : DocOut) (h : docStep cfg env m t = some out) :
    (out.fetched = false ↔
      ∃ u, t.updated_usec = some u ∧ storedKey m t.id = some (toString u)) ∧
    (out.status = .skippedUnchanged ↔
      (∃ u, t.updated_usec = some u ∧ storedKey m t.id = some (toString u)) ∨
      (t.updated_usec = none ∧
        ∃ d, env.html = some d ∧ storedKey m t.id = some (cfg.hash d))) := by
  cases hu : t.updated_usec with
  | some u =>
    simp only [docStep, hu] at h
    by_cases hk : storedKey m t.id = some (toString u)
    · rw [if_pos hk] at h
      cases h
      exact ⟨⟨fun _ => ⟨u, rfl, hk⟩, fun _ => rfl⟩,
             ⟨fun _ => Or.inl ⟨u, rfl, hk⟩, fun _ => rfl⟩⟩
    · rw [if_neg hk] at h
      simp only [docFetchPhase] at h
      cases hh : env.html with
      | none =>
        simp only [hh] at h
        cases h
        refine ⟨⟨(fun hf => by cases hf), ?_⟩, ⟨(fun hs => by cases hs), ?_⟩⟩
        · rintro ⟨u', hu', hk'⟩
          cases hu'
          exact absurd hk' hk
        · rintro (⟨u', hu', hk'⟩ | ⟨hn, -⟩)
          · cases hu'
            exact absurd hk' hk
          · cases hn
      | some d =>
        simp only [hh, hu] at h
        rw [if_neg (by rintro ⟨hn, -⟩; cases hn)] at h
        obtain ⟨hf, hst⟩ := docWritePhase_shape _ _ _ _ _ _ h
        refine ⟨⟨(fun hf0 => by rw [hf] at hf0; cases hf0), ?_⟩,
                ⟨(fun hs => by rcases hst with h1 | h1 <;> rw [h1] at hs <;> cases hs), ?_⟩⟩
        · rintro ⟨u', hu', hk'⟩
          cases hu'
          exact absurd hk' hk
        · rintro (⟨u', hu', hk'⟩ | ⟨hn, -⟩)
          · cases hu'
            exact absurd hk' hk
          · cases hn
  | none =>
    simp only [docStep, hu, docFetchPhase] at h
    cases hh : env.html with
    | none =>
      simp only [hh] at h
      cases h
      refine ⟨⟨(fun hf => by cases hf), ?_⟩, ⟨(fun hs => by cases hs), ?_⟩⟩
      · rintro ⟨u', hu', -⟩
        cases hu'
      · rintro (⟨u', hu', -⟩ | ⟨-, d, hd, -⟩)
        · cases hu'
        · cases hd
    | some d =>
      simp only [hh] at h
      by_cases hk : storedKey m t.id = some (cfg.hash d)
      · rw [if_pos ⟨trivial, hk⟩] at h
        cases h
        refine ⟨⟨(fun hf => by cases hf), ?_⟩,
                ⟨(fun _ => Or.inr ⟨rfl, d, rfl, hk⟩), (fun _ => rfl)⟩⟩
        · rintro ⟨u', hu', -⟩
          cases hu'
      · rw [if_neg (by rintro ⟨-, hk'⟩; exact hk hk')] at h
        obtain ⟨hf, hst⟩ := docWritePhase_shape _ _ _ _ _ _ h
        refine ⟨⟨(fun hf0 => by rw [hf] at hf0; cases hf0), ?_⟩,
                ⟨(fun hs => by rcases hst with h1 | h1 <;> rw [h1] at hs <;> cases hs), ?_⟩⟩
        · rintro ⟨u', hu', -⟩
          cases hu'
        · rintro (⟨u', hu', -⟩ | ⟨-, d', hd', hk'⟩)
          · cases hu'
          · cases hd'
            exact absurd hk' hk

def c2cfg : ExportCfg := ⟨["out"], false, fun _ => "H"⟩
def c2m : Manifest := [("T", ⟨"D", "D - T.md", "7", 1, [], none⟩)]
def c2t : ThreadMeta := ⟨"T", "D", some 7, none, none⟩
def c2env : DocEnv := ⟨some "<h>", true, some ("b", []), true, 5⟩
def c2out : DocOut := ⟨.skippedUnchanged, c2m, false, []⟩

/-- Witness for `c2_skip_decision` at a concrete token-match input. -/
theorem c2_skip_decision_witness :
    (c2out.fetched = false ↔
      ∃ u, c2t.updated_usec = some u ∧ storedKey c2m c2t.id = some (toString u)) ∧
    (c2out.status = .skippedUnchanged ↔
      (∃ u, c2t.updated_usec = some u ∧ storedKey c2m c2t.id = some (toString u)) ∨
      (c2t.updated_usec = none ∧
        ∃ d, c2env.html = some d ∧ storedKey c2m c2t.id = some (c2cfg.hash d))) :=
  c2_skip_decision c2cfg c2env c2m c2t c2out (by decide)

/-! ## C8 — per-document failure isolation -/

/-- A document that ends `FAILED` keeps the manifest unchanged and the
loop continues with the next document. -/
theorem c8_try_block_failure_isolated (cfg : ExportCfg) (env : DocEnv)
    (m : Manifest) (t : ThreadMeta) (rest : List (ThreadMeta × DocEnv))
    (o : DocOut) (h : docStep cfg env m t = some o) (hf : o.status = .failed) :
    o.manifest = m ∧
    runDocs cfg ((t, env) :: rest) m
      = ⟨.failed :: (runDocs cfg rest m).statuses,
         (runDocs cfg rest m).manifest,
         o.written ++ (runDocs cfg rest m).written,
         (runDocs cfg rest m).completed⟩ := by
  have hm : o.manifest = m := by
    rcases docStep_manifest cfg env m t o h with h1 | h1
    · rw [h1] at hf; cases hf
    · exact h1
  refine ⟨hm, ?_⟩
  simp only [runDocs, h, hm, hf]

def c8cfg : ExportCfg := ⟨["out"], false, fun _ => "H"⟩
def c8t1 : ThreadMeta := ⟨"T1", "A", some 1, none, none⟩
def c8t2 : ThreadMeta := ⟨"T2", "B", some 2, none, none⟩
/-- `ensure_dir` raises for the first document. -/
def c8envBad : DocEnv := ⟨some "<h>", false, some ("b", []), true, 0⟩
def c8envOk : DocEnv := ⟨some "<h>", true, some ("b", []), true, 0⟩
/-- `html_to_md_with_images` raises for the first document. -/
def c8envConvFail : DocEnv := ⟨some "<h>", true, none, true, 0⟩

/-- **C8** (counterexample to the claim as stated).  An exception in the
`ensure_dir` calls of the output-location block (step 4, "determine
document location" in the source) is raised *outside* the per-document
`try`: the run aborts with no `FAILED` status recorded and the second
document never processed (and `save_manifest` unreached) — the same
two-document run with directories succeeding exports both.  So not every
exception in steps 4-5 yields `FAILED`-and-continue. -/
theorem c8_counterexample_dir_creation_aborts :
    runDocs c8cfg [(c8t1, c8envBad), (c8t2, c8envOk)] [] = ⟨[], [], [], false⟩ ∧
    runDocs c8cfg [(c8t1, c8envOk), (c8t2, c8envOk)] []
      = ⟨[.exported, .exported],
         [("T1", ⟨"A", "A - T1.md", "1", 0, [], none⟩),
          ("T2", ⟨"B", "B - T2.md", "2", 0, [], none⟩)],
         [["out", "A - T1.md"], ["out", "B - T2.md"]], true⟩ := by
  constructor
  · decide
  · decide

/-- Witness for `c8_try_block_failure_isolated`: a conversion failure in
the `try` block of the first of two documents. -/
theorem c8_failure_isolated_witness :
    (⟨.failed, [], true, []⟩ : DocOut).manifest = ([] : Manifest) ∧
    runDocs c8cfg [(c8t1, c8envConvFail), (c8t2, c8envOk)] []
      = ⟨.failed :: (runDocs c8cfg [(c8t2, c8envOk)] []).statuses,
         (runDocs c8cfg [(c8t2, c8envOk)] []).manifest,
         [] ++ (runDocs c8cfg [(c8t2, c8envOk)] []).written,
         (runDocs c8cfg [(c8t2, c8envOk)] []).completed⟩ :=
  c8_try_block_failure_isolated c8cfg c8envConvFail [] c8t1 [(c8t2, c8envOk)]
    ⟨.failed, [], true, []⟩ (by decide) rfl

/-! ## C3 — idempotence of a second run -/

/-- Token-match skip happens for any oracle, without touching anything. -/
lemma docStep_token_skip (cfg : ExportCfg) (env : DocEnv) (m : Manifest)
    (t : ThreadMeta) (u : Nat) (hu : t.updated_usec = some u)
    (hk : storedKey m t.id = some (toString u)) :
    docStep cfg env m t = some ⟨.skippedUnchanged, m, false, []⟩ := by
  simp only [docStep, hu]
  rw [if_pos hk]

/-- An exported token-bearing document records its token as the stored
change key. -/
lemma docStep_exported_key (cfg : ExportCfg) (env : DocEnv) (m : Manifest)
    (t : ThreadMeta) (o : DocOut) (u : Nat) (h : docStep cfg env m t = some o)
    (hst : o.status = .exported) (hu : t.updated_usec = some u) :
    storedKey o.manifest t.id = some (toString u) := by
  simp only [docStep, hu] at h
  split at h
  · cases h; cases hst
  · simp only [docFetchPhase] at h
    cases hh : env.html with
    | none => simp only [hh] at h; cases h; cases hst
    | some d =>
      simp only [hh, hu] at h
      rw [if_neg (by rintro ⟨hn, -⟩; cases hn)] at h
      unfold docWritePhase at h
      split at h
      · exact absurd h (by simp)
      · split at h
        · cases h; cases hst
        · split at h
          · cases h; cases hst
          · split at h
            · cases h; cases hst
            · cases h
              show storedKey (mset m t.id _) t.id = some (toString u)
              unfold storedKey
              rw [mget_mset_self]
              rfl

/-- A document step never disturbs another identity's entry. -/
lemma docStep_preserves_other (cfg : ExportCfg) (env : DocEnv) (m : Manifest)
    (t : ThreadMeta) (o : DocOut) (h : docStep cfg env m t = some o)
    (id : String) (hne : id ≠ t.id) :
    storedKey o.manifest id = storedKey m id := by
  have wp : ∀ k, docWritePhase cfg env m t k = some o →
      storedKey o.manifest id = storedKey m id := by
    intro k hw
    unfold docWritePhase at hw
    split at hw
    · exact absurd hw (by simp)
    · split at hw
      · cases hw; rfl
      · split at hw
        · cases hw; rfl
        · split at hw
          · cases hw; rfl
          · cases hw
            show storedKey (mset m t.id _) id = storedKey m id
            unfold storedKey
            rw [mget_mset_other _ _ _ _ hne]
  have fp : docFetchPhase cfg env m t = some o →
      storedKey o.manifest id = storedKey m id := by
    intro hf
    unfold docFetchPhase at hf
    cases hh : env.html with
    | none => simp only [hh] at hf; cases hf; rfl
    | some d =>
      simp only [hh] at hf
      split at hf
      · cases hf; rfl
      · exact wp _ hf
  cases hu : t.updated_usec with
  | some u =>
    simp only [docStep, hu] at h
    split at h
    · cases h; rfl
    · exact fp h
  | none =>
    simp only [docStep, hu] at h
    exact fp h

/-- The loop never disturbs identities outside its document list. -/
lemma runDocs_preserves (cfg : ExportCfg) (docs : List (ThreadMeta × DocEnv))
    (m : Manifest) (id : String) (hid : id ∉ docs.map (fun d => d.1.id)) :
    storedKey (runDocs cfg docs m).manifest id = storedKey m id := by
  induction docs generalizing m with
  | nil => rfl
  | cons d rest ih =>
    obtain ⟨t, env⟩ := d
    have h1 : id ≠ t.id := fun hh => hid (by simp [hh])
    have h2 : id ∉ rest.map (fun d => d.1.id) := fun hh => hid (by simp [hh])
    simp only [runDocs]
    cases hs : docStep cfg env m t with
    | none => rfl
    | some o =>
      simp only []
      rw [ih o.manifest h2, docStep_preserves_other cfg env m t o hs id h1]

/-- After a completed run in which every document was exported, the
manifest stores each document's version token as its change key. -/
lemma run1_records (cfg : ExportCfg) (docs : List (ThreadMeta × DocEnv))
    (m0 : Manifest)
    (hnd : (docs.map (fun d => d.1.id)).Nodup)
    (hcom : (runDocs cfg docs m0).completed = true)
    (hall : ∀ s ∈ (runDocs cfg docs m0).statuses, s = .exported) :
    ∀ d ∈ docs, ∀ u, d.1.updated_usec = some u →
      storedKey (runDocs cfg docs m0).manifest d.1.id = some (toString u) := by
  induction docs generalizing m0 with
  | nil => intro d hd; cases hd
  | cons p rest ih =>
    obtain ⟨t, env⟩ := p
    intro d hd u hu
    simp only [runDocs] at hcom hall ⊢
    cases hs : docStep cfg env m0 t with
    | none => rw [hs] at hcom; cases hcom
    | some o =>
      rw [hs] at hcom hall
      simp only [] at hcom hall ⊢
      have hexp : o.status = .exported := hall o.status (by simp)
      have hallr : ∀ s ∈ (runDocs cfg rest o.manifest).statuses, s = .exported :=
        fun s hsm => hall s (by simp [hsm])
      cases hd with
      | head =>
        have hnotin : t.id ∉ rest.map (fun d => d.1.id) := by
          simp only [List.map_cons, List.nodup_cons] at hnd
          exact hnd.1
        rw [runDocs_preserves cfg rest o.manifest t.id hnotin]
        exact docStep_exported_key cfg env m0 t o u hs hexp hu
      | tail _ hdr =>
        exact ih o.manifest
          (by simp only [List.map_cons, List.nodup_cons] at hnd; exact hnd.2)
          hcom hallr d hdr u hu

/-- A run in which every document's token matches the manifest skips
everything and changes nothing. -/
lemma run_all_token_skip (cfg : ExportCfg) (docs : List (ThreadMeta × DocEnv))
    (m : Manifest)
    (hs : ∀ d ∈ docs, ∃ u, d.1.updated_usec = some u ∧
        storedKey m d.1.id = some (toString u)) :
    runDocs cfg docs m
      = ⟨List.replicate docs.length .skippedUnchanged, m, [], true⟩ := by
  induction docs with
  | nil => rfl
  | cons p rest ih =>
    obtain ⟨t, env⟩ := p
    obtain ⟨u, hu, hk⟩ := hs (t, env) (by simp)
    simp only [runDocs, docStep_token_skip cfg env m t u hu hk]
    rw [ih (fun d hd => hs d (by simp [hd]))]
    rfl

/-- **C3**.  Exporting the same folder twice: after a completed first run
in which every (token-bearing, identity-unique) document was exported,
a second run over the same documents — whatever its remote oracles,
since they are never consulted — skips every document as unchanged,
writes no Markdown file, leaves the manifest mapping identical, and
hence serializes to a byte-identical manifest file. -/
theorem c3_second_run_idempotent (cfg : ExportCfg)
    (docs : List (ThreadMeta × DocEnv)) (m0 : Manifest) (envs2 : List DocEnv)
    (hnd : (docs.map (fun d => d.1.id)).Nodup)
    (htok : ∀ d ∈ docs, ∃ u, d.1.updated_usec = some u)
    (hcom : (runDocs cfg docs m0).completed = true)
    (hall : ∀ s ∈ (runDocs cfg docs m0).statuses, s = .exported)
    (hlen : envs2.length = docs.length) :
    runDocs cfg ((docs.map (fun d => d.1)).zip envs2)
        (runDocs cfg docs m0).manifest
      = ⟨List.replicate docs.length .skippedUnchanged,
         (runDocs cfg docs m0).manifest, [], true⟩ ∧
    renderManifest (runDocs cfg ((docs.map (fun d => d.1)).zip envs2)
        (runDocs cfg docs m0).manifest).manifest
      = renderManifest (runDocs cfg docs m0).manifest := by
  have hskip : ∀ d2 ∈ (docs.map (fun d => d.1)).zip envs2,
      ∃ u, d2.1.updated_usec = some u ∧
        storedKey (runDocs cfg docs m0).manifest d2.1.id = some (toString u) := by
    rintro ⟨t2, e2⟩ hd2
    have hmem := (List.of_mem_zip hd2).1
    obtain ⟨d, hd, hdeq⟩ := List.mem_map.mp hmem
    obtain ⟨u, hu⟩ := htok d hd
    refine ⟨u, ?_, ?_⟩
    · show t2.updated_usec = some u
      rw [← hdeq]; exact hu
    · show storedKey _ t2.id = _
      rw [← hdeq]
      exact run1_records cfg docs m0 hnd hcom hall d hd u hu
  have hlen2 : ((docs.map (fun d => d.1)).zip envs2).length = docs.length := by
    rw [List.length_zip, List.length_map, hlen, min_self]
  have hrun := run_all_token_skip cfg ((docs.map (fun d => d.1)).zip envs2)
      (runDocs cfg docs m0).manifest hskip
  rw [hlen2] at hrun
  exact ⟨hrun, by rw [hrun]⟩

def c3cfg : ExportCfg := ⟨["out"], false, fun _ => "H"⟩
def c3t : ThreadMeta := ⟨"T", "D", some 7, none, none⟩
def c3env1 : DocEnv := ⟨some "<h>", true, some ("b", []), true, 5⟩
def c3env2 : DocEnv := ⟨none, false, none, false, 9⟩

/-- Witness for `c3_second_run_idempotent`: one exported document, then a
second run with a hostile oracle. -/
theorem c3_second_run_witness :
    runDocs c3cfg (([(c3t, c3env1)].map (fun d => d.1)).zip [c3env2])
        (runDocs c3cfg [(c3t, c3env1)] []).manifest
      = ⟨[.skippedUnchanged], (runDocs c3cfg [(c3t, c3env1)] []).manifest,
         [], true⟩ :=
  (c3_second_run_idempotent c3cfg [(c3t, c3env1)] [] [c3env2]
    (by decide)
    (by rintro d hd; rw [List.mem_singleton] at hd; exact ⟨7, by rw [hd]; rfl⟩)
    (by decide) (by decide) rfl).1

/-! ## C7 — the walker's output ordering

`list.sort(key=...)` is stable; the embedding realizes it as a sort of
the index-annotated list by the injective key `(key, position)`, so
sortedness, permutation and stability are provable facts about it. -/

theorem pySortBy_perm (key : ThreadMeta → List (List Char)) (l : List ThreadMeta) :
    (pySortBy key l).Perm l := by
  have h := (List.perm_insertionSort (stableRel key) l.enum).map Prod.snd
  rwa [List.enum_map_snd] at h

theorem pySortBy_sorted (key : ThreadMeta → List (List Char)) (l : List ThreadMeta) :
    (pySortBy key l).Sorted (fun a b => key a ≤ key b) := by
  haveI ht : IsTotal (Nat × ThreadMeta) (stableRel key) :=
    ⟨fun a b => le_total (toLex (key a.2, a.1)) (toLex (key b.2, b.1))⟩
  haveI htr : IsTrans (Nat × ThreadMeta) (stableRel key) :=
    ⟨fun a b c hab hbc => le_trans hab hbc⟩
  have hs := List.sorted_insertionSort (stableRel key) l.enum
  refine List.Pairwise.map _ ?_ hs
  intro a b hab
  rcases (Prod.Lex.le_iff (key a.2, a.1) (key b.2, b.1)).1 hab with h | ⟨h1, -⟩
  · exact le_of_lt h
  · exact le_of_eq h1

/-- Stability: among elements with the same sort key, the sorted list
preserves the input order (their subsequences coincide). -/
theorem pySortBy_stable (key : ThreadMeta → List (List Char))
    (l : List ThreadMeta) (k : List (List Char)) :
    (pySortBy key l).filter (fun x => key x = k)
      = l.filter (fun x => key x = k) := by
  haveI ht : IsTotal (Nat × ThreadMeta) (stableRel key) :=
    ⟨fun a b => le_total (toLex (key a.2, a.1)) (toLex (key b.2, b.1))⟩
  haveI htr : IsTrans (Nat × ThreadMeta) (stableRel key) :=
    ⟨fun a b c hab hbc => le_trans hab hbc⟩
  haveI has : IsAntisymm (Nat × ThreadMeta) (fun a b => a.1 < b.1) :=
    ⟨fun a b h1 h2 => absurd h2 (Nat.lt_asymm h1)⟩
  set q : ThreadMeta → Bool := fun x => decide (key x = k) with hq
  set p : Nat × ThreadMeta → Bool := q ∘ Prod.snd with hp
  set A := (l.enum).insertionSort (stableRel key) with hA
  have hperm : A.Perm l.enum := List.perm_insertionSort _ _
  have hfst : (A.map Prod.fst).Nodup := by
    have h2 : (A.map Prod.fst).Perm (l.enum.map Prod.fst) := hperm.map _
    rw [List.enum_map_fst] at h2
    exact h2.nodup_iff.2 (List.nodup_range _)
  have hsorted := List.sorted_insertionSort (stableRel key) l.enum
  have hFAperm : (A.filter p).Perm (l.enum.filter p) := hperm.filter p
  have hFE_sorted : (l.enum.filter p).Pairwise (fun a b => a.1 < b.1) := by
    have h1 : (l.enum).Pairwise (fun a b => a.1 < b.1) := by
      have h0 := List.pairwise_lt_range l.length
      rw [← List.enum_map_fst] at h0
      exact List.pairwise_map.1 h0
    exact List.Pairwise.sublist (List.filter_sublist _) h1
  have hFA_sorted : (A.filter p).Pairwise (fun a b => a.1 < b.1) := by
    have hps : (A.filter p).Pairwise (stableRel key) :=
      List.Pairwise.sublist (List.filter_sublist _) hsorted
    have hpne : (A.filter p).Pairwise (fun a b => a.1 ≠ b.1) :=
      List.Pairwise.sublist (List.filter_sublist _) (List.pairwise_map.1 hfst)
    have hmem : ∀ x ∈ A.filter p, key x.2 = k := by
      intro x hx
      have hmx := List.of_mem_filter hx
      exact of_decide_eq_true hmx
    refine (hps.and hpne).imp_of_mem ?_
    rintro a b ha hb ⟨hr, hne⟩
    rcases (Prod.Lex.le_iff (key a.2, a.1) (key b.2, b.1)).1 hr with hlt | ⟨-, hle⟩
    · rw [hmem a ha, hmem b hb] at hlt
      exact absurd hlt (lt_irrefl _)
    · exact lt_of_le_of_ne hle hne
  have hEQ : A.filter p = l.enum.filter p :=
    List.eq_of_perm_of_sorted hFAperm hFA_sorted hFE_sorted
  show (A.map Prod.snd).filter q = l.filter q
  rw [List.filter_map, hEQ, ← List.filter_map, List.enum_map_snd]

/-- The documented sort key as a function of `maintain_structure`. -/
def docKey : Bool → ThreadMeta → List (List Char)
  | true => key3
  | false => key2

/-- "Sorted by the documented key": by `(folder path, lowercased title,
identity)` when path tracking is on, else `(lowercased title, identity)`
(code-point lexicographic throughout, as in Python). -/
def sortedByDocKey : Bool → List ThreadMeta → Prop
  | true, l => l.Sorted (fun a b => key3 a ≤ key3 b)
  | false, l => l.Sorted (fun a b => key2 a ≤ key2 b)

/-- **C7**.  For every traversal, the walker's returned list is sorted by
the documented key for the active mode, is a permutation of the raw
traversal output, and the sort is stable: elements sharing a key keep
their traversal order.  Reproducibility is definitional — the walker is
a pure function of its environment. -/
theorem c7_walker_output_sorted_stable (env : ApiEnv) (rootId : String)
    (recursive maintain : Bool) :
    sortedByDocKey maintain (list_folder_threads env rootId recursive maintain) ∧
    (list_folder_threads env rootId recursive maintain).Perm
      (walkOut env rootId recursive maintain) ∧
    ∀ k, (list_folder_threads env rootId recursive maintain).filter
        (fun x => docKey maintain x = k)
      = (walkOut env rootId recursive maintain).filter
        (fun x => docKey maintain x = k) := by
  cases maintain
  · exact ⟨pySortBy_sorted key2 _, pySortBy_perm key2 _,
      fun k => pySortBy_stable key2 _ k⟩
  · exact ⟨pySortBy_sorted key3 _, pySortBy_perm key3 _,
      fun k => pySortBy_stable key3 _ k⟩

/-! ## C6 — uniqueness of identities in one traversal

The folder-level `seen` set deduplicates folders reached via several
parents, but nothing deduplicates *thread* references: a document listed
as a child of two distinct folders is emitted twice.  Uniqueness holds
exactly under the assumption that each thread id occurs in at most one
place among all folders' children. -/

/-- The thread ids among a `children` array. -/
def threadIdsOf (cs : List ChildRef) : List String :=
  cs.filterMap (fun c => match c with | .thread t => some t | .folder _ => none)

/-- A folder's children per the environment (empty if the fetch fails). -/
def childrenOfD (env : ApiEnv) (fid : String) : List ChildRef :=
  match env.folderAt fid with
  | some fo => fo.children
  | none => []

/-- Every thread reference of every folder in the environment. -/
def allThreadRefs (env : ApiEnv) : List String :=
  (env.folders.map (fun p => threadIdsOf p.2.children)).flatten

/-- The ids a folder emits form a sublist of its thread references
(failed thread fetches are dropped). -/
lemma childThreads_ids_sublist (env : ApiEnv) (maintain : Bool) (rootId : String)
    (info : FolderInfo) (fid : String) (cs : List ChildRef) :
    ((childThreads env maintain rootId info fid cs).map (fun t => t.id)).Sublist
      (threadIdsOf cs) := by
  induction cs with
  | nil => simp [childThreads, threadIdsOf]
  | cons c rest ih =>
    cases c with
    | thread tid =>
      cases ht : env.threads tid with
      | none =>
        simp only [childThreads, threadIdsOf, List.filterMap_cons, ht]
        exact (ih).cons tid
      | some tobj =>
        simp only [childThreads, threadIdsOf, List.filterMap_cons, ht, List.map_cons]
        exact (ih).cons₂ tid
    | folder f =>
      simp only [childThreads, threadIdsOf, List.filterMap_cons]
      exact ih

lemma folderAt_mem (env : ApiEnv) (fid : String) (fo : FolderObj)
    (h : env.folderAt fid = some fo) : (fid, fo) ∈ env.folders := by
  unfold ApiEnv.folderAt at h
  cases hf : env.folders.find? (fun p => p.1 = fid) with
  | none => rw [hf] at h; cases h
  | some pr =>
    rw [hf] at h
    cases h
    have h1 := List.find?_some hf
    have h2 := List.mem_of_find?_eq_some hf
    have h3 : pr.1 = fid := of_decide_eq_true h1
    have h4 : pr = (fid, pr.2) := by
      obtain ⟨a, b⟩ := pr
      simp at h3
      rw [h3]
    rwa [← h4]

/-- Two entries with distinct keys have disjoint thread references when
the global reference list has no duplicates. -/
lemma comps_disjoint (L : List (String × FolderObj))
    (hg : ((L.map (fun p => threadIdsOf p.2.children)).flatten).Nodup) :
    ∀ p ∈ L, ∀ q ∈ L, p.1 ≠ q.1 →
      ∀ x, x ∈ threadIdsOf p.2.children → x ∈ threadIdsOf q.2.children → False := by
  induction L with
  | nil => intro p hp; cases hp
  | cons hd t ih =>
    rw [List.map_cons, List.flatten_cons] at hg
    have hdis := List.disjoint_of_nodup_append hg
    have hg2 : ((t.map (fun p => threadIdsOf p.2.children)).flatten).Nodup :=
      (List.nodup_append.1 hg).2.1
    intro p hp q hq hne x hxp hxq
    cases hp with
    | head =>
      cases hq with
      | head => exact hne rfl
      | tail _ hq' =>
        exact hdis hxp (List.mem_flatten.2
          ⟨threadIdsOf q.2.children, List.mem_map_of_mem _ hq', hxq⟩)
    | tail _ hp' =>
      cases hq with
      | head =>
        exact hdis hxq (List.mem_flatten.2
          ⟨threadIdsOf p.2.children, List.mem_map_of_mem _ hp', hxp⟩)
      | tail _ hq' => exact ih hg2 p hp' q hq' hne x hxp hxq

/-- The concatenated references of distinct resolvable folders are
duplicate-free under the global hypothesis. -/
lemma selected_flatten_nodup (env : ApiEnv)
    (hg : (allThreadRefs env).Nodup) (procd : List String)
    (hnd : procd.Nodup) (hmem : ∀ f ∈ procd, (env.folderAt f).isSome) :
    ((procd.map (fun f => threadIdsOf (childrenOfD env f))).flatten).Nodup := by
  induction procd with
  | nil => simp
  | cons f rest ih =>
    rw [List.map_cons, List.flatten_cons, List.nodup_append]
    have hf : (env.folderAt f).isSome := hmem f (by simp)
    obtain ⟨fo, hfo⟩ := Option.isSome_iff_exists.1 hf
    have hcomp : childrenOfD env f = fo.children := by
      unfold childrenOfD; rw [hfo]
    refine ⟨?_, ih (List.Nodup.of_cons hnd) (fun g hg' => hmem g (by simp [hg'])), ?_⟩
    · rw [hcomp]
      have hmm : threadIdsOf fo.children ∈
          env.folders.map (fun p => threadIdsOf p.2.children) :=
        List.mem_map_of_mem _ (folderAt_mem env f fo hfo)
      exact (List.nodup_flatten.1 hg).1 _ hmm
    · intro x hx1 hx2
      obtain ⟨cg, hcg, hxg⟩ := List.mem_flatten.1 hx2
      obtain ⟨g, hgr, hgeq⟩ := List.mem_map.1 hcg
      have hgf : f ≠ g := fun he => (List.nodup_cons.1 hnd).1 (he ▸ hgr)
      have hgs : (env.folderAt g).isSome := hmem g (by simp [hgr])
      obtain ⟨go, hgo⟩ := Option.isSome_iff_exists.1 hgs
      have hcompg : childrenOfD env g = go.children := by
        unfold childrenOfD; rw [hgo]
      rw [hcomp] at hx1
      rw [← hgeq, hcompg] at hxg
      exact comps_disjoint env.folders hg (f, fo) (folderAt_mem env f fo hfo)
        (g, go) (folderAt_mem env g go hgo) hgf x hx1 hxg

/-- Loop invariant: the emitted ids form a sublist of the concatenated
thread references of a duplicate-free list of seen, resolvable folders. -/
def OutBound (env : ApiEnv) (s : WalkState) : Prop :=
  ∃ procd : List String, procd.Nodup ∧ (∀ f ∈ procd, f ∈ s.seen) ∧
    (∀ f ∈ procd, (env.folderAt f).isSome) ∧
    ((s.out.map (fun t => t.id)).Sublist
      ((procd.map (fun f => threadIdsOf (childrenOfD env f))).flatten))

lemma walkLoop_outBound (env : ApiEnv) (rootId : String)
    (recursive maintain : Bool) :
    ∀ (fuel : Nat) (s : WalkState), OutBound env s →
      OutBound env (walkLoop env rootId recursive maintain fuel s) := by
  intro fuel
  induction fuel with
  | zero => intro s h; exact h
  | succ n ih =>
    intro s h
    obtain ⟨procd, hnd, hseen, hsome, hsub⟩ := h
    rw [walkLoop]
    cases hq : s.queue with
    | nil => exact ⟨procd, hnd, hseen, hsome, hsub⟩
    | cons hd rest =>
      obtain ⟨fid, parent⟩ := hd
      simp only []
      by_cases hmem : fid ∈ s.seen
      · rw [if_pos hmem]
        exact ih _ ⟨procd, hnd, hseen, hsome, hsub⟩
      · rw [if_neg hmem]
        cases hf : env.folderAt fid with
        | none =>
          exact ih _ ⟨procd, hnd,
            (fun f hf' => List.mem_append_left _ (hseen f hf')), hsome, hsub⟩
        | some fo =>
          apply ih
          refine ⟨procd ++ [fid], ?_, ?_, ?_, ?_⟩
          · rw [List.nodup_append]
            exact ⟨hnd, List.nodup_singleton _,
              fun f hf' hf2 => hmem ((List.mem_singleton.1 hf2) ▸ hseen f hf')⟩
          · intro f hf'
            rcases List.mem_append.1 hf' with h1 | h1
            · exact List.mem_append_left _ (hseen f h1)
            · exact List.mem_append_right _ h1
          · intro f hf'
            rcases List.mem_append.1 hf' with h1 | h1
            · exact hsome f h1
            · rw [List.mem_singleton.1 h1, hf]
              rfl
          · show ((s.out ++ childThreads env maintain rootId _ fid fo.children).map
                (fun t => t.id)).Sublist _
            rw [List.map_append, List.map_append, List.flatten_append]
            refine List.Sublist.append hsub ?_
            have hcomp : childrenOfD env fid = fo.children := by
              unfold childrenOfD; rw [hf]
            simp only [List.map_singleton, List.flatten_cons, List.flatten_nil,
              List.append_nil, hcomp]
            exact childThreads_ids_sublist env maintain rootId _ fid fo.children

/-- **C6** (amended).  Identities in one traversal result are unique
provided each document id occurs at most once among all folders'
children (`allThreadRefs env` duplicate-free) — which still allows a
subfolder to be reachable via two parents, since the `seen` set prevents
a folder from being processed twice.  Without that proviso the claim
fails (see the counterexample): nothing deduplicates thread references
across folders. -/
theorem c6_unique_ids (env : ApiEnv) (rootId : String)
    (recursive maintain : Bool)
    (hg : (allThreadRefs env).Nodup) :
    ((list_folder_threads env rootId recursive maintain).map
      (fun t => t.id)).Nodup := by
  have hinit : OutBound env ⟨[(rootId, none)], [], [], []⟩ :=
    ⟨[], List.nodup_nil, (fun f hf => absurd hf (List.not_mem_nil f)),
     (fun f hf => absurd hf (List.not_mem_nil f)), by simp⟩
  obtain ⟨procd, hnd, -, hsome, hsub⟩ :=
    walkLoop_outBound env rootId recursive maintain (walkFuel env) _ hinit
  have hflat := selected_flatten_nodup env hg procd hnd hsome
  have hout : ((walkOut env rootId recursive maintain).map
      (fun t => t.id)).Nodup := List.Nodup.sublist hsub hflat
  have hperm : (list_folder_threads env rootId recursive maintain).Perm
      (walkOut env rootId recursive maintain) := by
    cases maintain
    · exact pySortBy_perm key2 _
    · exact pySortBy_perm key3 _
  exact ((hperm.map (fun t => t.id)).nodup_iff).2 hout

/-- A folder tree in which document `T` is a child of two distinct
folders `A` and `B`. -/
def c6Env : ApiEnv :=
  { folders := [("R", ⟨some "Root", none, [.folder "A", .folder "B"]⟩),
                ("A", ⟨some "Alpha", none, [.thread "T"]⟩),
                ("B", ⟨some "Beta", none, [.thread "T"]⟩)],
    threads := fun tid =>
      if tid = "T" then some ⟨some "Doc", some 5, none, none⟩ else none }

/-- **C6** (counterexample to the claim as stated).  A document reachable
via two parent folders is emitted twice: the traversal result contains
two descriptors with identity `T`. -/
theorem c6_counterexample_shared_document_duplicated :
    (list_folder_threads c6Env "R" true false).map (fun t => t.id) = ["T", "T"] ∧
    ¬ ((list_folder_threads c6Env "R" true false).map (fun t => t.id)).Nodup := by
  constructor
  · decide
  · decide

/-- A diamond over subfolder `C` (reachable from both `A` and `B`), with
each document placed once. -/
def c6EnvOk : ApiEnv :=
  { folders := [("R", ⟨some "Root", none, [.folder "A", .folder "B"]⟩),
                ("A", ⟨some "Alpha", none, [.folder "C", .thread "T1"]⟩),
                ("B", ⟨some "Beta", none, [.folder "C", .thread "T2"]⟩),
                ("C", ⟨some "Gamma", none, [.thread "T3"]⟩)],
    threads := fun tid =>
      if tid = "T1" then some ⟨some "One", some 1, none, none⟩
      else if tid = "T2" then some ⟨some "Two", some 2, none, none⟩
      else if tid = "T3" then some ⟨some "Three", some 3, none, none⟩
      else none }

/-- Witness for `c6_unique_ids`: the subfolder diamond keeps identities
unique. -/
theorem c6_unique_ids_witness :
    (allThreadRefs c6EnvOk).Nodup ∧
    ((list_folder_threads c6EnvOk "R" true true).map (fun t => t.id)).Nodup :=
  ⟨by decide, c6_unique_ids c6EnvOk "R" true true (by decide)⟩
